import Mathlib

/-!
Verification of the inflearn-affiliate repository against its design
specification.

The repository consists of a Next.js content-display application
(`src/app/*/page.tsx`), a Supabase client module (`src/lib/supabase.ts`),
and shared type definitions (`src/lib/types.ts`).  The course data
ingestion pipeline (fetcher, extractor, validator/normalizer,
deduplicator/upserter, run reporter) is described by the specification but
its implementation (`scripts/src/scraper.py` per the README) is not part
of the provided source, so it is modelled from the specification below.

JavaScript truthiness matters in several places: `!x` is true for both
`undefined`/`null` and the empty string `""`, and for the number `0`.
Optional values are modelled as `Option`, numbers as `Int`/`Nat`/`ℚ`, and
timestamps as naturals ordered by time value.
-/

namespace Inflearn

/-! ## Supabase client module (`src/lib/supabase.ts`) -/

/-- A JavaScript string-valued expression is truthy iff it is neither
`undefined`/`null` nor the empty string. -/
def strTruthy (s : Option String) : Bool :=
  match s with
  | none => false
  | some v => v ≠ ""

/-- The created Supabase client, holding the two credentials passed to
`createClient`. -/
structure SupabaseClient where
  url : String
  anonKey : String
deriving DecidableEq, Repr

/-- Module initialization of `src/lib/supabase.ts`: read the two
environment variables, throw `"Missing Supabase environment variables"`
when `!supabaseUrl || !supabaseAnonKey`, otherwise create the client.
The thrown error is modelled as `Except.error`; module-level evaluation
happens before any fetch or store access. -/
def initSupabase (supabaseUrl supabaseAnonKey : Option String) :
    Except String SupabaseClient :=
  if !strTruthy supabaseUrl || !strTruthy supabaseAnonKey then
    .error "Missing Supabase environment variables"
  else
    .ok ⟨supabaseUrl.getD "", supabaseAnonKey.getD ""⟩

/-! ## The `Course` row type (`src/lib/types.ts`, `src/lib/supabase.ts`) -/

/-- The `Course` type from `src/lib/types.ts` (identical in
`src/lib/supabase.ts`), mapping the `courses` table.  `number | null`
fields become `Option`; timestamps are modelled as naturals ordered by
time value. -/
structure Course where
  id : String
  title : String
  instructor : String
  url : String
  price_krw : Option Int
  discount_price_krw : Option Int
  rating : Option ℚ
  student_count : Int
  category : Option String
  subcategory : Option String
  difficulty_level : Option String
  duration_hours : Option ℚ
  is_trending : Bool
  created_at : Nat
  updated_at : Nat
deriving DecidableEq, Repr

/-- The field names of the `Course` type, in source order
(`src/lib/types.ts:13-58`). -/
def courseFieldNames : List String :=
  ["id", "title", "instructor", "url", "price_krw", "discount_price_krw",
   "rating", "student_count", "category", "subcategory",
   "difficulty_level", "duration_hours", "is_trending", "created_at",
   "updated_at"]

/-- Modelled from the spec: the field names of the ephemeral
`CourseCandidate` record of §3 of the specification (no candidate type
exists in the provided source). -/
def candidateFieldNames : List String :=
  ["title", "instructor", "url", "original_price", "sale_price",
   "rating", "review_count", "student_count"]

/-- Modelled from the spec: the documented correspondence between the
specification's candidate field names and the store's column names — the
prices are stored in KRW-suffixed columns, every other field keeps its
name. -/
def recordFieldName (n : String) : String :=
  if n = "original_price" then "price_krw"
  else if n = "sale_price" then "discount_price_krw"
  else n

/-! ## Courses page (`src/app/courses/page.tsx`) -/

/-- A JavaScript number-valued expression is truthy iff it is neither
`null` nor `0`. -/
def numTruthy (v : Option Int) : Bool :=
  match v with
  | none => false
  | some n => n ≠ 0

/-- What the price cell of a course card shows: a won amount or the
literal `"무료"` (free). -/
inductive PriceDisplay where
  | won (n : Int)
  | free
deriving DecidableEq, Repr

/-- The price ternary of `src/app/courses/page.tsx:35-41`:
`course.discount_price_krw ? ₩... : course.price_krw ? ₩... : "무료"`. -/
def displayPrice (discount_price_krw price_krw : Option Int) : PriceDisplay :=
  if numTruthy discount_price_krw then .won (discount_price_krw.getD 0)
  else if numTruthy price_krw then .won (price_krw.getD 0)
  else .free

/-- Result of the Supabase query as destructured on the page:
`const { data: courses, error } = await supabase...`. -/
structure QueryResult where
  data : Option (List Course)
  error : Option String
deriving DecidableEq, Repr

/-- What the courses page renders: the error branch, a list of course
cards, or the empty-state message. -/
inductive CoursesView where
  | errorMsg (msg : String)
  | courseList (entries : List Course)
  | empty
deriving DecidableEq, Repr

/-- The descending `created_at` order requested by
`.order("created_at", { ascending: false })`. -/
def createdDesc (a b : Course) : Prop :=
  b.created_at ≤ a.created_at

instance : DecidableRel createdDesc := fun a b =>
  inferInstanceAs (Decidable (b.created_at ≤ a.created_at))

instance : IsTotal Course createdDesc :=
  ⟨fun a b => Nat.le_total b.created_at a.created_at⟩

instance : IsTrans Course createdDesc :=
  ⟨fun _ _ _ hab hbc => Nat.le_trans hbc hab⟩

/-- The query of `src/app/courses/page.tsx:8-11`: all rows of `courses`
ordered by `created_at` descending. -/
def coursesQuery (rows : List Course) : List Course :=
  rows.insertionSort createdDesc

/-- The rendering of `src/app/courses/page.tsx`: early return on a
truthy `error`, otherwise the grid over `courses` in query order when
`courses && courses.length > 0`, else the empty-state message. -/
def renderCoursesPage (res : QueryResult) : CoursesView :=
  match res.error with
  | some e => .errorMsg e
  | none =>
    match res.data with
    | some courses =>
      if courses.length > 0 then .courseList courses else .empty
    | none => .empty

/-! ## Categories page (`src/app/categories/page.tsx`) -/

/-- A row of the `select("category, subcategory")` projection used by the
categories page. -/
structure CatRow where
  category : Option String
  subcategory : Option String
deriving DecidableEq, Repr

/-- The `.not("category", "is", null)` filter of the categories query:
only rows whose category is non-null are returned. -/
def categoriesQuery (rows : List CatRow) : List CatRow :=
  rows.filter (fun r => r.category.isSome)

/-- Adding a row's subcategory to a category's `Set<string>`: `null`/`""`
subcategories are skipped (`if (item.subcategory)`), duplicates are
collapsed, insertion order is kept. -/
def addSub (subs : List String) (s : Option String) : List String :=
  match s with
  | none => subs
  | some v => if v = "" then subs else if v ∈ subs then subs else subs ++ [v]

/-- Updating one entry of the accumulated map: the entry with the given
category key receives the subcategory, every other entry is left
alone. -/
def updEntry (c : String) (sub : Option String)
    (p : String × List String) : String × List String :=
  if p.1 = c then (p.1, addSub p.2 sub) else p

/-- One iteration of the `categories?.forEach` loop of
`src/app/categories/page.tsx:20-30` over the insertion-ordered
`Map<string, Set<string>>`, modelled as an association list:
`if (!item.category) return;` skips falsy categories, a fresh category
gets an empty set, then a truthy subcategory is added to the set. -/
def addRow (m : List (String × List String)) (r : CatRow) :
    List (String × List String) :=
  match r.category with
  | none => m
  | some c =>
    if c = "" then m
    else if m.any (fun p => p.1 = c) then m.map (updEntry c r.subcategory)
    else m ++ [(c, addSub [] r.subcategory)]

/-- The `categoryMap` the categories page renders: the query result
folded through the `forEach` loop. -/
def categoryGroups (rows : List CatRow) : List (String × List String) :=
  (categoriesQuery rows).foldl addRow []

/-- The loop invariant of the `forEach` fold: after processing the rows
`seen`, the accumulated map has pairwise-distinct keys, its keys are
exactly the truthy categories seen so far, and each entry holds exactly
the distinct truthy subcategories seen under its key. -/
def GroupsInv (m : List (String × List String)) (seen : List CatRow) :
    Prop :=
  (m.map Prod.fst).Nodup ∧
  (∀ c : String, c ∈ m.map Prod.fst ↔
    c ≠ "" ∧ ∃ r ∈ seen, r.category = some c) ∧
  (∀ p ∈ m, (p : String × List String).2.Nodup ∧ ∀ s : String,
    s ∈ p.2 ↔ s ≠ "" ∧ ∃ r ∈ seen,
      r.category = some p.1 ∧ r.subcategory = some s)

/-! ## Ingestion pipeline (modelled from the spec)

The pipeline of §2–§4 of the specification is not part of the provided
source (only `scripts/src/scraper.py` is referenced by the README), so
every definition in this section is modelled from the specification. -/

/-- Modelled from the spec: the ephemeral `CourseCandidate` of §3,
produced by the Extractor.  Prices are non-negative integers or absent,
the rating a number in `[0,5]` or absent, the counts non-negative
integers defaulting to 0. -/
structure CourseCandidate where
  title : String
  instructor : String
  url : String
  original_price : Option Nat
  sale_price : Option Nat
  rating : Option ℚ
  review_count : Nat
  student_count : Nat
deriving DecidableEq, Repr

/-- Modelled from the spec: the durable `CourseRecord` of §3 — the
candidate fields plus a generated identifier, classification, difficulty,
duration, trending flag and timestamps. -/
structure CourseRecord where
  id : Nat
  title : String
  instructor : String
  url : String
  original_price : Option Nat
  sale_price : Option Nat
  rating : Option ℚ
  review_count : Nat
  student_count : Nat
  category : Option String
  subcategory : Option String
  difficulty_level : Option String
  duration_hours : Option Nat
  is_trending : Bool
  created_at : Nat
  updated_at : Nat
deriving DecidableEq, Repr

/-- Modelled from the spec: field-by-field exact equality on the tracked
subset of §4.4 (price, sale_price, rating, student_count,
review_count). -/
def sameTracked (c : CourseCandidate) (r : CourseRecord) : Prop :=
  c.original_price = r.original_price ∧
  c.sale_price = r.sale_price ∧
  c.rating = r.rating ∧
  c.student_count = r.student_count ∧
  c.review_count = r.review_count

instance (c : CourseCandidate) (r : CourseRecord) :
    Decidable (sameTracked c r) := by
  unfold sameTracked
  infer_instance

/-- Modelled from the spec: lookup by the stable natural key (course
URL), `findByUrl(url) -> CourseRecord?` of §4.5. -/
def findByUrl (store : List CourseRecord) (url : String) :
    Option CourseRecord :=
  store.find? (fun r => r.url = url)

/-- Modelled from the spec: the tagged upsert decision of §4.4/§9. -/
inductive UpsertDecision where
  | insert
  | update
  | skip
deriving DecidableEq, Repr

/-- Modelled from the spec: the Deduplicator/Upserter decision of §4.4 —
INSERT when no record exists for the url, SKIP when the existing record
is identical in all tracked fields, UPDATE otherwise. -/
def decideUpsert (store : List CourseRecord) (c : CourseCandidate) :
    UpsertDecision :=
  match findByUrl store c.url with
  | none => .insert
  | some r => if sameTracked c r then .skip else .update

/-- Modelled from the spec: the record INSERT creates — candidate fields
copied, classification unset, `created_at = updated_at = now`, a
generated identifier. -/
def newRecord (now id : Nat) (c : CourseCandidate) : CourseRecord :=
  { id := id
    title := c.title
    instructor := c.instructor
    url := c.url
    original_price := c.original_price
    sale_price := c.sale_price
    rating := c.rating
    review_count := c.review_count
    student_count := c.student_count
    category := none
    subcategory := none
    difficulty_level := none
    duration_hours := none
    is_trending := false
    created_at := now
    updated_at := now }

/-- Modelled from the spec: what UPDATE writes (§4.4) — the tracked
fields from the candidate, a fresh `updated_at`, and classification
fields backfilled from `cls` only when currently unset (a set
classification field is never overwritten by a re-scrape). -/
def updatedRecord (now : Nat) (cls : Option String × Option String)
    (c : CourseCandidate) (r : CourseRecord) : CourseRecord :=
  { r with
    original_price := c.original_price
    sale_price := c.sale_price
    rating := c.rating
    review_count := c.review_count
    student_count := c.student_count
    category := match r.category with
      | some x => some x
      | none => cls.1
    subcategory := match r.subcategory with
      | some x => some x
      | none => cls.2
    updated_at := now }

/-- Modelled from the spec: the per-run outcome counts of the RunReport
(§3). -/
structure RunCounts where
  inserted : Nat
  updated : Nat
  skipped : Nat
deriving DecidableEq, Repr

/-- Modelled from the spec: processing one normalized candidate —
decide insert/update/skip against the store's current state and apply
the decision (candidates carry no classification of their own, §9's open
question, so updates backfill nothing). -/
def processOne (now : Nat) (st : List CourseRecord × RunCounts)
    (c : CourseCandidate) : List CourseRecord × RunCounts :=
  match findByUrl st.1 c.url with
  | none =>
    (st.1 ++ [newRecord now st.1.length c],
     { st.2 with inserted := st.2.inserted + 1 })
  | some r =>
    if sameTracked c r then
      (st.1, { st.2 with skipped := st.2.skipped + 1 })
    else
      (st.1.map (fun q =>
        if q.url = c.url then updatedRecord now (none, none) c q else q),
       { st.2 with updated := st.2.updated + 1 })

/-- Modelled from the spec: one full run of the upsert stage over a batch
of normalized candidates, returning the final store and the run's
outcome counts. -/
def runPipeline (now : Nat) (store : List CourseRecord)
    (cands : List CourseCandidate) : List CourseRecord × RunCounts :=
  cands.foldl (processOne now) (store, ⟨0, 0, 0⟩)

/-! ### Validator/Normalizer (modelled from the spec, §4.3) -/

/-- Whether the first list is an initial segment of the second. -/
def beginsWith : List Char → List Char → Bool
  | [], _ => true
  | _ :: _, [] => false
  | p :: ps, c :: cs => p = c && beginsWith ps cs

/-- Remove leading and trailing whitespace. -/
def trimStr (s : String) : String :=
  ⟨(((s.data.dropWhile Char.isWhitespace).reverse).dropWhile
      Char.isWhitespace).reverse⟩

/-- Modelled from the spec: the url must be absolute and use an allowed
scheme (http/https). -/
def isAbsoluteUrl (u : String) : Bool :=
  beginsWith "https://".data u.data || beginsWith "http://".data u.data

/-- Modelled from the spec: a rating outside `[0,5]` is clamped to the
nearest bound. -/
def clampRating (q : ℚ) : ℚ :=
  if q < 0 then 0 else if 5 < q then 5 else q

/-- Modelled from the spec: when both prices are present and
`sale_price > original_price`, the sale price is discarded as a
data-entry anomaly; otherwise both are kept. -/
def fixPrices (original_price sale_price : Option Nat) :
    Option Nat × Option Nat :=
  match original_price, sale_price with
  | some o, some s => if o < s then (some o, none) else (some o, some s)
  | o, s => (o, s)

/-- Modelled from the spec: the `ValidationError` cases of §4.3 that are
fatal for a single candidate. -/
inductive ValidationError where
  | emptyTitle
  | emptyInstructor
  | badUrl
deriving DecidableEq, Repr

/-- Modelled from the spec: the Validator/Normalizer of §4.3 — trim
title/instructor and require them non-empty, require an absolute url with
an allowed scheme, auto-correct an inverted sale price by discarding it,
clamp the rating into `[0,5]`. -/
def normalize (c : CourseCandidate) :
    Except ValidationError CourseCandidate :=
  if trimStr c.title = "" then .error .emptyTitle
  else if trimStr c.instructor = "" then .error .emptyInstructor
  else if !isAbsoluteUrl c.url then .error .badUrl
  else
    .ok { c with
      title := trimStr c.title
      instructor := trimStr c.instructor
      original_price := (fixPrices c.original_price c.sale_price).1
      sale_price := (fixPrices c.original_price c.sale_price).2
      rating := c.rating.map clampRating }

/-! ### Extractor (modelled from the spec, §4.2) -/

/-- Modelled from the spec: one listing fragment of a raw page payload,
as raw text fields (the exact markup is out of the spec's control). -/
structure RawListing where
  titleText : String
  instructorText : String
  urlText : String
  priceText : String
  studentText : String
deriving DecidableEq, Repr

/-- Modelled from the spec: tolerant numeric parsing — strip currency
symbols and thousands separators (every non-digit), fall back to absent
when no digit remains. -/
def parseNat? (s : String) : Option Nat :=
  let ds := s.toList.filter Char.isDigit
  if ds.isEmpty then none
  else some (ds.foldl (fun n d => n * 10 + (d.toNat - 48)) 0)

/-- Modelled from the spec: parse one listing fragment into a
`CourseCandidate`, in document order; a fragment without a usable title,
instructor or absolute url is unparseable (`none`), numeric fields fall
back to absent/0 instead of failing. -/
def parseListing (f : RawListing) : Option CourseCandidate :=
  if trimStr f.titleText = "" then none
  else if trimStr f.instructorText = "" then none
  else if !isAbsoluteUrl f.urlText then none
  else some
    { title := trimStr f.titleText
      instructor := trimStr f.instructorText
      url := f.urlText
      original_price := parseNat? f.priceText
      sale_price := none
      rating := none
      review_count := 0
      student_count := (parseNat? f.studentText).getD 0 }

/-- Modelled from the spec: the Extractor's result for one page — the
candidates found in document order plus the page's `ExtractionError`
count. -/
structure ExtractResult where
  candidates : List CourseCandidate
  extractionErrors : Nat
deriving DecidableEq, Repr

/-- Modelled from the spec: handling of a single fragment during
extraction — a parsed fragment is appended in document order, an
unparseable one is skipped and counted. -/
def extractStep (acc : ExtractResult) (f : RawListing) : ExtractResult :=
  match parseListing f with
  | some c => { acc with candidates := acc.candidates ++ [c] }
  | none => { acc with extractionErrors := acc.extractionErrors + 1 }

/-- Modelled from the spec: extraction of one raw page payload (§4.2) —
each fragment is parsed independently; an unparseable fragment is skipped
and counted as one `ExtractionError` attributed to the page, never
aborting the remaining fragments. -/
def extractPage (frags : List RawListing) : ExtractResult :=
  frags.foldl extractStep ⟨[], 0⟩

/-- Modelled from the spec: a page payload with ten listing fragments of
which exactly one (the fourth, whitespace title) is malformed. -/
def samplePage : List RawListing :=
  [⟨"Course A", "Kim", "https://www.inflearn.com/course/a", "10,000", "120"⟩,
   ⟨"Course B", "Lee", "https://www.inflearn.com/course/b", "25,000", "30"⟩,
   ⟨"Course C", "Park", "https://www.inflearn.com/course/c", "", "0"⟩,
   ⟨"   ", "Choi", "https://www.inflearn.com/course/d", "15,000", "77"⟩,
   ⟨"Course E", "Jung", "https://www.inflearn.com/course/e", "99,000", "5"⟩,
   ⟨"Course F", "Kang", "https://www.inflearn.com/course/f", "1,000", "41"⟩,
   ⟨"Course G", "Cho", "https://www.inflearn.com/course/g", "77,000", "8"⟩,
   ⟨"Course H", "Yoon", "https://www.inflearn.com/course/h", "33,000", "900"⟩,
   ⟨"Course I", "Jang", "https://www.inflearn.com/course/i", "0", "12"⟩,
   ⟨"Course J", "Lim", "https://www.inflearn.com/course/j", "5,500", "64"⟩]

/-- Modelled from the spec: a concrete candidate with an inverted sale
price (sale 50000 over original 30000), used to instantiate C4. -/
def invertedPriceCandidate : CourseCandidate :=
  { title := "Course"
    instructor := "Kim"
    url := "https://www.inflearn.com/course/x"
    original_price := some 30000
    sale_price := some 50000
    rating := some 4
    review_count := 10
    student_count := 100 }

/-- Modelled from the spec: a concrete stored record for the upsert
witnesses. -/
def storedRecord : CourseRecord :=
  { id := 1
    title := "Course A"
    instructor := "Kim"
    url := "https://www.inflearn.com/course/a"
    original_price := some 10000
    sale_price := none
    rating := some 4
    review_count := 3
    student_count := 120
    category := some "IT"
    subcategory := none
    difficulty_level := none
    duration_hours := none
    is_trending := false
    created_at := 100
    updated_at := 100 }

/-- Modelled from the spec: a candidate identical to `storedRecord` in
all tracked fields. -/
def matchingCandidate : CourseCandidate :=
  { title := "Course A"
    instructor := "Kim"
    url := "https://www.inflearn.com/course/a"
    original_price := some 10000
    sale_price := none
    rating := some 4
    review_count := 3
    student_count := 120 }

/-- Modelled from the spec: the same candidate with only the student
count changed. -/
def changedCandidate : CourseCandidate :=
  { matchingCandidate with student_count := 150 }

/-- Modelled from the spec: a two-candidate batch with distinct urls for
the idempotence witness. -/
def sampleBatch : List CourseCandidate :=
  [matchingCandidate,
   { title := "Course B"
     instructor := "Lee"
     url := "https://www.inflearn.com/course/b"
     original_price := some 25000
     sale_price := some 19000
     rating := none
     review_count := 0
     student_count := 30 }]

/-!
# Theorems
-/

/-- C6 (amended): if either Supabase environment variable is missing or
present but empty — JavaScript's `!x` treats both the same way — module
initialization throws the fatal configuration error before any fetch or
store access; with both present and non-empty it succeeds and creates
the store client. -/
theorem supabase_env_check :
    (∀ url key : Option String,
      url = none ∨ url = some "" ∨ key = none ∨ key = some "" →
      initSupabase url key
        = .error "Missing Supabase environment variables") ∧
    (∀ u k : String, u ≠ "" → k ≠ "" →
      initSupabase (some u) (some k) = .ok ⟨u, k⟩) := by
  refine ⟨fun url key h => ?_, fun u k hu hk => ?_⟩
  · rcases h with rfl | rfl | rfl | rfl <;> simp [initSupabase, strTruthy]
  · simp [initSupabase, strTruthy, hu, hk, Option.getD]

/-- C6 counterexample: both environment variables are present (non-null)
but the url is the empty string, and initialization still fails — so
"with both present, module initialization succeeds" is false as
stated. -/
theorem supabase_present_empty_fails :
    initSupabase (some "") (some "anon-key")
        = .error "Missing Supabase environment variables" ∧
    (some "" : Option String) ≠ none ∧
    (some "anon-key" : Option String) ≠ none := by
  refine ⟨?_, by decide, by decide⟩
  simp [initSupabase, strTruthy]

/-- C6 witness: a concrete non-empty url and key initialize
successfully, and the same url with a present-but-empty key aborts with
the fatal configuration error. -/
theorem supabase_env_check_witness :
    initSupabase (some "https://x.supabase.co") (some "anon")
      = .ok ⟨"https://x.supabase.co", "anon"⟩ ∧
    initSupabase (some "https://x.supabase.co") (some "")
      = .error "Missing Supabase environment variables" :=
  ⟨supabase_env_check.2 "https://x.supabase.co" "anon"
      (by decide) (by decide),
   supabase_env_check.1 (some "https://x.supabase.co") (some "")
      (Or.inr (Or.inr (Or.inr rfl)))⟩

/-- C8: the courses page shows `discount_price_krw` when it is non-null
and non-zero, otherwise `price_krw` when that is non-null and non-zero,
otherwise the literal free label; a zero discount falls through to the
regular price, and a zero regular price with no discount displays as
free. -/
theorem displayed_price_selection (d p : Option Int) :
    (∀ n : Int, d = some n → n ≠ 0 → displayPrice d p = .won n) ∧
    ((d = none ∨ d = some 0) →
      ∀ n : Int, p = some n → n ≠ 0 → displayPrice d p = .won n) ∧
    ((d = none ∨ d = some 0) → (p = none ∨ p = some 0) →
      displayPrice d p = .free) ∧
    displayPrice (some 0) p = displayPrice none p ∧
    displayPrice none (some 0) = .free := by
  refine ⟨fun n hd hn => ?_, fun hd n hp hn => ?_, fun hd hp => ?_, ?_, ?_⟩
  · subst hd
    simp [displayPrice, numTruthy, hn]
  · rcases hd with hd | hd <;> subst hd <;> subst hp <;>
      simp [displayPrice, numTruthy, hn]
  · rcases hd with hd | hd <;> rcases hp with hp | hp <;>
      subst hd <;> subst hp <;> simp [displayPrice, numTruthy]
  · simp [displayPrice, numTruthy]
  · simp [displayPrice, numTruthy]

/-- C8 witness: a concrete discounted course displays its discount
price. -/
theorem displayed_price_selection_witness :
    displayPrice (some 35000) (some 50000) = .won 35000 :=
  (displayed_price_selection (some 35000) (some 50000)).1 35000 rfl
    (by decide)

/-- C5 counterexample: the specification's candidate carries a
`review_count`, but the stored `Course` type of `src/lib/types.ts` /
`src/lib/supabase.ts` has no corresponding column — the stored record
type is not a superset of the candidate's fields. -/
theorem course_type_missing_review_count :
    "review_count" ∈ candidateFieldNames ∧
    recordFieldName "review_count" ∉ courseFieldNames := by
  decide

/-- C5 (amended): the stored `Course` type contains every
`CourseCandidate` field except `review_count` (the prices under their
KRW column names), plus the generated identifier, category/subcategory
classification, difficulty level, duration, trending flag and
created/updated timestamps. -/
theorem course_type_superset_except_review_count :
    (∀ n ∈ candidateFieldNames,
      n ≠ "review_count" → recordFieldName n ∈ courseFieldNames) ∧
    (∀ n ∈ ["id", "category", "subcategory", "difficulty_level",
            "duration_hours", "is_trending", "created_at", "updated_at"],
      n ∈ courseFieldNames) := by
  decide

/-- C5 witness: the candidate's `title` field is stored under the same
name. -/
theorem course_type_superset_witness :
    recordFieldName "title" ∈ courseFieldNames :=
  course_type_superset_except_review_count.1 "title" (by decide) (by decide)

/-- C4: for a candidate with both prices present and
`sale_price > original_price` that is otherwise valid, normalization
succeeds (no fatal error) and returns a candidate with the sale price
discarded and the original price unchanged. -/
theorem normalize_discards_inverted_sale_price
    (c : CourseCandidate) (o s : Nat)
    (ht : trimStr c.title ≠ "") (hi : trimStr c.instructor ≠ "")
    (hu : isAbsoluteUrl c.url = true)
    (ho : c.original_price = some o) (hs : c.sale_price = some s)
    (hlt : o < s) :
    ∃ c', normalize c = .ok c' ∧ c'.original_price = some o ∧
      c'.sale_price = none := by
  have hfix : fixPrices c.original_price c.sale_price = (some o, none) := by
    rw [ho, hs]
    simp [fixPrices, hlt]
  refine ⟨{ c with
      title := trimStr c.title
      instructor := trimStr c.instructor
      original_price := (fixPrices c.original_price c.sale_price).1
      sale_price := (fixPrices c.original_price c.sale_price).2
      rating := c.rating.map clampRating }, ?_, ?_, ?_⟩
  · unfold normalize
    rw [if_neg ht, if_neg hi, hu]
    rfl
  · simp [hfix]
  · simp [hfix]

/-- C4 witness: the concrete candidate with original price 30000 and
sale price 50000 normalizes to original price 30000 and no sale
price. -/
theorem normalize_discards_inverted_sale_price_witness :
    ∃ c', normalize invertedPriceCandidate = .ok c' ∧
      c'.original_price = some 30000 ∧ c'.sale_price = none :=
  normalize_discards_inverted_sale_price invertedPriceCandidate 30000 50000
    (by decide) (by decide) (by decide) rfl rfl (by decide)

/-- Folding the extraction step appends the parseable fragments in
document order and adds one error per unparseable fragment. -/
theorem foldl_extractStep (frags : List RawListing) (acc : ExtractResult) :
    frags.foldl extractStep acc =
      ⟨acc.candidates ++ frags.filterMap parseListing,
       acc.extractionErrors
         + frags.countP (fun f => (parseListing f).isNone)⟩ := by
  induction frags generalizing acc with
  | nil => simp
  | cons f fs ih =>
    simp only [List.foldl_cons, ih, List.filterMap_cons, List.countP_cons]
    cases h : parseListing f with
    | some c => simp [extractStep, h]
    | none =>
      simp [extractStep, h, ExtractResult.mk.injEq]
      omega

/-- Extraction yields exactly the parseable fragments and counts exactly
the unparseable ones. -/
theorem extractPage_spec (frags : List RawListing) :
    extractPage frags =
      ⟨frags.filterMap parseListing,
       frags.countP (fun f => (parseListing f).isNone)⟩ := by
  simpa [extractPage] using foldl_extractStep frags ⟨[], 0⟩

/-- The number of parsed candidates equals the number of parseable
fragments. -/
theorem length_filterMap_parse (frags : List RawListing) :
    (frags.filterMap parseListing).length
      = frags.countP (fun f => (parseListing f).isSome) := by
  induction frags with
  | nil => simp
  | cons f fs ih => cases h : parseListing f <;> simp [h, ih]

/-- Every fragment is either parseable or unparseable. -/
theorem countP_parse_total (frags : List RawListing) :
    frags.countP (fun f => (parseListing f).isSome)
      + frags.countP (fun f => (parseListing f).isNone)
      = frags.length := by
  induction frags with
  | nil => simp
  | cons f fs ih =>
    cases h : parseListing f <;> simp [h, List.countP_cons] <;> omega

/-- C7: a malformed fragment never aborts extraction of the rest of the
page — on a page of 10 fragments of which exactly 1 is unparseable,
extraction returns exactly 9 candidates and an `ExtractionError` count
of 1. -/
theorem extract_malformed_counted (frags : List RawListing)
    (hlen : frags.length = 10)
    (hbad : frags.countP (fun f => (parseListing f).isNone) = 1) :
    (extractPage frags).candidates.length = 9 ∧
    (extractPage frags).extractionErrors = 1 := by
  rw [extractPage_spec]
  refine ⟨?_, hbad⟩
  have htot := countP_parse_total frags
  rw [length_filterMap_parse]
  omega

/-- C7 witness: the concrete ten-fragment page with one whitespace-titled
fragment extracts 9 candidates and counts 1 extraction error. -/
theorem extract_malformed_counted_witness :
    samplePage.length = 10 ∧
    samplePage.countP (fun f => (parseListing f).isNone) = 1 ∧
    (extractPage samplePage).candidates.length = 9 ∧
    (extractPage samplePage).extractionErrors = 1 :=
  ⟨by decide, by decide,
   (extract_malformed_counted samplePage (by decide) (by decide)).1,
   (extract_malformed_counted samplePage (by decide) (by decide)).2⟩

/-! ### Upserter lemmas -/

/-- Appending a record does not change a successful lookup. -/
theorem findByUrl_append_of_some {s : List CourseRecord} {u : String}
    {r : CourseRecord} (n : CourseRecord) (h : findByUrl s u = some r) :
    findByUrl (s ++ [n]) u = some r := by
  induction s with
  | nil => simp [findByUrl] at h
  | cons q qs ih =>
    unfold findByUrl at h ⊢
    rw [List.cons_append, List.find?_cons] at *
    cases hq : decide (q.url = u) with
    | true => rw [hq] at h; exact h
    | false => rw [hq] at h; exact ih h

/-- After a failed lookup, appending a record makes the lookup find
exactly that record when its url matches. -/
theorem findByUrl_append_of_none {s : List CourseRecord} {u : String}
    (n : CourseRecord) (h : findByUrl s u = none) :
    findByUrl (s ++ [n]) u = if n.url = u then some n else none := by
  induction s with
  | nil =>
    unfold findByUrl
    rw [List.nil_append, List.find?_cons, List.find?_nil]
    cases hn : decide (n.url = u) with
    | true => rw [if_pos (of_decide_eq_true hn)]
    | false => rw [if_neg (of_decide_eq_false hn)]
  | cons q qs ih =>
    unfold findByUrl at h ⊢
    rw [List.find?_cons] at h
    rw [List.cons_append, List.find?_cons]
    cases hq : decide (q.url = u) with
    | true => rw [hq] at h; exact Option.noConfusion h
    | false => rw [hq] at h; exact ih h

/-- A lookup commutes with a url-preserving map over the store. -/
theorem findByUrl_map (f : CourseRecord → CourseRecord)
    (hf : ∀ x, (f x).url = x.url) (s : List CourseRecord) (u : String) :
    findByUrl (s.map f) u = (findByUrl s u).map f := by
  induction s with
  | nil => rfl
  | cons q qs ih =>
    unfold findByUrl at ih ⊢
    rw [List.map_cons, List.find?_cons, List.find?_cons, hf]
    cases hq : decide (q.url = u) with
    | true => rfl
    | false => exact ih

/-- A successful lookup returns a record carrying the looked-up url. -/
theorem findByUrl_url {s : List CourseRecord} {u : String}
    {r : CourseRecord} (h : findByUrl s u = some r) : r.url = u := by
  have h' := @List.find?_some _ (fun x : CourseRecord => decide (x.url = u))
    r s h
  exact of_decide_eq_true h'

/-- The update written for a candidate preserves the record's url. -/
theorem updatedRecord_url (now : Nat) (cls : Option String × Option String)
    (c : CourseCandidate) (r : CourseRecord) :
    (updatedRecord now cls c r).url = r.url := rfl

/-- Processing a candidate never changes what a lookup at any other url
returns. -/
theorem processOne_lookup_other (now : Nat)
    (st : List CourseRecord × RunCounts) (c : CourseCandidate) (u : String)
    (hne : u ≠ c.url) :
    findByUrl (processOne now st c).1 u = findByUrl st.1 u := by
  cases hfind : findByUrl st.1 c.url with
  | none =>
    simp only [processOne, hfind]
    cases hu : findByUrl st.1 u with
    | some r => exact findByUrl_append_of_some _ hu
    | none =>
      rw [findByUrl_append_of_none _ hu]
      exact if_neg fun h => hne ((show (newRecord now st.1.length c).url
        = c.url from rfl) ▸ h).symm
  | some r =>
    by_cases hst : sameTracked c r
    · simp only [processOne, hfind, if_pos hst]
    · simp only [processOne, hfind, if_neg hst]
      have hf : ∀ x, ((fun q => if q.url = c.url
          then updatedRecord now (none, none) c q else q) x).url = x.url := by
        intro x
        by_cases hx : x.url = c.url <;> simp [hx, updatedRecord_url]
      rw [findByUrl_map _ hf]
      cases hu : findByUrl st.1 u with
      | none => rfl
      | some q =>
        have hq : q.url = u := findByUrl_url hu
        simp [hq, hne]

/-- After processing a candidate, a lookup at its url finds a record
identical to it in all tracked fields. -/
theorem processOne_lookup_self (now : Nat)
    (st : List CourseRecord × RunCounts) (c : CourseCandidate) :
    ∃ r, findByUrl (processOne now st c).1 c.url = some r ∧
      sameTracked c r := by
  cases hfind : findByUrl st.1 c.url with
  | none =>
    refine ⟨newRecord now st.1.length c, ?_, rfl, rfl, rfl, rfl, rfl⟩
    simp only [processOne, hfind]
    rw [findByUrl_append_of_none _ hfind]
    exact if_pos rfl
  | some r =>
    by_cases hst : sameTracked c r
    · exact ⟨r, by simp only [processOne, hfind, if_pos hst], hst⟩
    · refine ⟨updatedRecord now (none, none) c r, ?_,
        rfl, rfl, rfl, rfl, rfl⟩
      simp only [processOne, hfind, if_neg hst]
      have hf : ∀ x, ((fun q => if q.url = c.url
          then updatedRecord now (none, none) c q else q) x).url = x.url := by
        intro x
        by_cases hx : x.url = c.url <;> simp [hx, updatedRecord_url]
      rw [findByUrl_map _ hf, hfind]
      have hr : r.url = c.url := findByUrl_url hfind
      simp [hr]

/-- C2: a candidate whose url is already stored and whose tracked fields
all equal the stored record's yields SKIP, and the store — in particular
the record's `updated_at` — is unchanged by processing it. -/
theorem upsert_identical_skips (now : Nat) (s : List CourseRecord)
    (k : RunCounts) (c : CourseCandidate) (r : CourseRecord)
    (hfind : findByUrl s c.url = some r) (hst : sameTracked c r) :
    decideUpsert s c = .skip ∧
    (processOne now (s, k) c).1 = s ∧
    findByUrl (processOne now (s, k) c).1 c.url = some r := by
  refine ⟨?_, ?_, ?_⟩
  · simp [decideUpsert, hfind, hst]
  · simp only [processOne, hfind, if_pos hst]
  · simp only [processOne, hfind, if_pos hst]

/-- C2 witness: the concrete matching candidate is skipped and the store
is unchanged. -/
theorem upsert_identical_skips_witness :
    decideUpsert [storedRecord] matchingCandidate = .skip ∧
    (processOne 200 ([storedRecord], ⟨0, 0, 0⟩) matchingCandidate).1
      = [storedRecord] ∧
    findByUrl (processOne 200 ([storedRecord], ⟨0, 0, 0⟩)
        matchingCandidate).1 matchingCandidate.url = some storedRecord :=
  upsert_identical_skips 200 [storedRecord] ⟨0, 0, 0⟩ matchingCandidate
    storedRecord (by decide) (by decide)

/-- C3: a candidate differing from its stored record only in
`student_count` yields UPDATE; after processing, the stored record's
`updated_at` has strictly increased, a classification field that was set
is left unchanged, and a classification field is only ever filled when
currently unset. -/
theorem upsert_student_count_updates (now : Nat) (s : List CourseRecord)
    (k : RunCounts) (c : CourseCandidate) (r : CourseRecord)
    (cls : Option String × Option String)
    (hfind : findByUrl s c.url = some r)
    (hnow : r.updated_at < now)
    (hop : c.original_price = r.original_price)
    (hsp : c.sale_price = r.sale_price)
    (hrat : c.rating = r.rating)
    (hrev : c.review_count = r.review_count)
    (hsc : c.student_count ≠ r.student_count) :
    decideUpsert s c = .update ∧
    findByUrl (processOne now (s, k) c).1 c.url
      = some (updatedRecord now (none, none) c r) ∧
    r.updated_at < (updatedRecord now (none, none) c r).updated_at ∧
    (∀ x, r.category = some x → (updatedRecord now cls c r).category
      = some x) ∧
    (∀ x, r.subcategory = some x → (updatedRecord now cls c r).subcategory
      = some x) ∧
    (r.category = none → (updatedRecord now cls c r).category = cls.1) ∧
    (r.subcategory = none → (updatedRecord now cls c r).subcategory
      = cls.2) := by
  have hst : ¬ sameTracked c r := fun h => hsc h.2.2.2.1
  refine ⟨?_, ?_, hnow, ?_, ?_, ?_, ?_⟩
  · simp [decideUpsert, hfind, hst]
  · simp only [processOne, hfind, if_neg hst]
    have hf : ∀ x, ((fun q => if q.url = c.url
        then updatedRecord now (none, none) c q else q) x).url = x.url := by
      intro x
      by_cases hx : x.url = c.url <;> simp [hx, updatedRecord_url]
    rw [findByUrl_map _ hf, hfind]
    have hr : r.url = c.url := findByUrl_url hfind
    simp [hr]
  · intro x hx
    simp [updatedRecord, hx]
  · intro x hx
    simp [updatedRecord, hx]
  · intro hx
    simp [updatedRecord, hx]
  · intro hx
    simp [updatedRecord, hx]

/-- C3 witness: the concrete candidate changed only in student count is
an UPDATE, bumps `updated_at` from 100 to 200 and keeps the manually set
category even when a backfill value is offered. -/
theorem upsert_student_count_updates_witness :
    decideUpsert [storedRecord] changedCandidate = .update ∧
    findByUrl (processOne 200 ([storedRecord], ⟨0, 0, 0⟩)
        changedCandidate).1 changedCandidate.url
      = some (updatedRecord 200 (none, none) changedCandidate
          storedRecord) ∧
    storedRecord.updated_at
      < (updatedRecord 200 (none, none) changedCandidate
          storedRecord).updated_at ∧
    (updatedRecord 200 (some "Web", none) changedCandidate
        storedRecord).category = some "IT" := by
  have h := upsert_student_count_updates 200 [storedRecord] ⟨0, 0, 0⟩
    changedCandidate storedRecord (some "Web", none) (by decide) (by decide)
    (by decide) (by decide) (by decide) (by decide) (by decide)
  exact ⟨h.1, h.2.1, h.2.2.1, h.2.2.2.1 "IT" (by decide)⟩

/-- A whole batch whose candidates all have urls different from `u`
leaves the lookup at `u` unchanged. -/
theorem foldl_lookup_preserve (now : Nat) (cands : List CourseCandidate)
    (st : List CourseRecord × RunCounts) (u : String)
    (h : ∀ c ∈ cands, c.url ≠ u) :
    findByUrl (cands.foldl (processOne now) st).1 u = findByUrl st.1 u := by
  induction cands generalizing st with
  | nil => rfl
  | cons c cs ih =>
    rw [List.foldl_cons,
      ih _ (fun c' hc' => h c' (List.mem_cons_of_mem _ hc'))]
    exact processOne_lookup_other now st c u
      (fun he => h c (List.mem_cons_self c cs) he.symm)

/-- After one run over a batch with pairwise-distinct urls, every
candidate of the batch has a stored record identical to it in all
tracked fields. -/
theorem foldl_all_tracked (now : Nat) (cands : List CourseCandidate)
    (st : List CourseRecord × RunCounts)
    (hnd : (cands.map CourseCandidate.url).Nodup) :
    ∀ c ∈ cands, ∃ r,
      findByUrl (cands.foldl (processOne now) st).1 c.url = some r ∧
      sameTracked c r := by
  induction cands generalizing st with
  | nil => intro c hc; cases hc
  | cons c cs ih =>
    have hnd' : (cs.map CourseCandidate.url).Nodup :=
      (List.nodup_cons.mp (by simpa using hnd)).2
    have hhead : c.url ∉ cs.map CourseCandidate.url :=
      (List.nodup_cons.mp (by simpa using hnd)).1
    intro c' hc'
    rw [List.foldl_cons]
    rcases List.mem_cons.mp hc' with rfl | hmem
    · rw [foldl_lookup_preserve now cs _ c'.url
        (fun c'' hc'' he => hhead (he ▸ List.mem_map_of_mem _ hc''))]
      exact processOne_lookup_self now st c'
    · exact ih _ hnd' c' hmem

/-- A batch whose candidates all already have tracked-identical stored
records is processed as pure SKIPs: the store is unchanged and only the
skipped count grows, by the batch length. -/
theorem foldl_all_skip (now : Nat) (cands : List CourseCandidate)
    (s : List CourseRecord) (k : RunCounts)
    (h : ∀ c ∈ cands, ∃ r, findByUrl s c.url = some r ∧ sameTracked c r) :
    cands.foldl (processOne now) (s, k)
      = (s, ⟨k.inserted, k.updated, k.skipped + cands.length⟩) := by
  induction cands generalizing k with
  | nil => simp
  | cons c cs ih =>
    obtain ⟨r, hfind, hst⟩ := h c (List.mem_cons_self c cs)
    rw [List.foldl_cons]
    have hstep : processOne now (s, k) c
        = (s, ⟨k.inserted, k.updated, k.skipped + 1⟩) := by
      simp only [processOne, hfind, if_pos hst]
    rw [hstep, ih _ (fun c' hc' => h c' (List.mem_cons_of_mem _ hc'))]
    have harith : k.skipped + 1 + cs.length = k.skipped + (c :: cs).length := by
      rw [List.length_cons]
      omega
    rw [harith]

/-- C1: running the pipeline a second time over the unchanged batch
(pairwise-distinct urls) directly after a first run produces zero INSERT
and zero UPDATE outcomes — every candidate is a SKIP — and leaves every
stored row, including its timestamps, unchanged. -/
theorem pipeline_second_run_all_skip (now₁ now₂ : Nat)
    (store : List CourseRecord) (cands : List CourseCandidate)
    (hnd : (cands.map CourseCandidate.url).Nodup) :
    runPipeline now₂ (runPipeline now₁ store cands).1 cands
      = ((runPipeline now₁ store cands).1, ⟨0, 0, cands.length⟩) := by
  have htr := foldl_all_tracked now₁ cands (store, ⟨0, 0, 0⟩) hnd
  simp only [runPipeline] at htr ⊢
  rw [foldl_all_skip now₂ cands _ ⟨0, 0, 0⟩ htr]
  simp

/-- C1 witness: over the concrete two-candidate batch, the second run
right after the first yields zero inserts, zero updates and two skips,
and leaves the store of the first run unchanged. -/
theorem pipeline_second_run_all_skip_witness :
    (sampleBatch.map CourseCandidate.url).Nodup ∧
    runPipeline 2 (runPipeline 1 [] sampleBatch).1 sampleBatch
      = ((runPipeline 1 [] sampleBatch).1, ⟨0, 0, sampleBatch.length⟩) :=
  ⟨by decide, pipeline_second_run_all_skip 1 2 [] sampleBatch (by decide)⟩

/-- C9: when the store returns a non-null error, the courses page
renders only the error message and no course entries; the course list is
rendered only when the error is null, in the order the query returns —
which is sorted by `created_at` descending and a permutation of the
stored rows. -/
theorem courses_page_error_and_order (res : QueryResult)
    (rows : List Course) :
    (∀ e, res.error = some e → renderCoursesPage res = .errorMsg e) ∧
    (res.error = none → res.data = some rows → rows ≠ [] →
      renderCoursesPage res = .courseList rows) ∧
    (res.error = none → res.data = some rows → rows = [] →
      renderCoursesPage res = .empty) ∧
    (coursesQuery rows).Pairwise createdDesc ∧
    List.Perm (coursesQuery rows) rows := by
  refine ⟨fun e he => ?_, fun h1 h2 h3 => ?_, fun h1 h2 h3 => ?_, ?_, ?_⟩
  · simp [renderCoursesPage, he]
  · simp [renderCoursesPage, h1, h2, List.length_pos.mpr h3]
  · subst h3
    simp [renderCoursesPage, h1, h2]
  · exact List.sorted_insertionSort createdDesc rows
  · exact List.perm_insertionSort createdDesc rows

/-- C9 witness: a concrete query failure renders only the error
message. -/
theorem courses_page_error_witness :
    renderCoursesPage ⟨none, some "load failed"⟩
      = .errorMsg "load failed" :=
  (courses_page_error_and_order ⟨none, some "load failed"⟩ []).1
    "load failed" rfl

/-! ### Categories page lemmas -/

/-- Membership after adding a subcategory to a set: the old members plus
the added value when it is truthy. -/
theorem mem_addSub (subs : List String) (s : Option String) (x : String) :
    x ∈ addSub subs s ↔ x ∈ subs ∨ (s = some x ∧ x ≠ "") := by
  cases s with
  | none => simp [addSub]
  | some v =>
    by_cases hv : v = ""
    · subst hv
      simp only [addSub, if_pos rfl]
      constructor
      · exact Or.inl
      · rintro (h | ⟨hx, hne⟩)
        · exact h
        · exact absurd (Option.some.inj hx).symm hne
    · by_cases hm : v ∈ subs
      · simp only [addSub, if_neg hv, if_pos hm]
        constructor
        · exact Or.inl
        · rintro (h | ⟨hx, _⟩)
          · exact h
          · exact (Option.some.inj hx) ▸ hm
      · simp only [addSub, if_neg hv, if_neg hm, List.mem_append,
          List.mem_singleton]
        constructor
        · rintro (h | rfl)
          · exact Or.inl h
          · exact Or.inr ⟨rfl, hv⟩
        · rintro (h | ⟨hx, _⟩)
          · exact Or.inl h
          · exact Or.inr (Option.some.inj hx).symm

/-- Adding a subcategory to a duplicate-free set keeps it
duplicate-free. -/
theorem nodup_addSub (subs : List String) (s : Option String)
    (h : subs.Nodup) : (addSub subs s).Nodup := by
  cases s with
  | none => exact h
  | some v =>
    by_cases hv : v = ""
    · simpa [addSub, hv] using h
    · by_cases hm : v ∈ subs
      · simpa [addSub, hv, hm] using h
      · simp only [addSub, if_neg hv, if_neg hm]
        refine List.nodup_append.mpr ⟨h, List.nodup_singleton v, ?_⟩
        intro a ha hb
        rw [List.mem_singleton] at hb
        subst hb
        exact hm ha

/-- An existential over a list with one row appended splits into the old
rows and the new row. -/
theorem exists_mem_snoc {α : Type} (P : α → Prop) (l : List α) (x : α) :
    (∃ y ∈ l ++ [x], P y) ↔ (∃ y ∈ l, P y) ∨ P x := by
  constructor
  · rintro ⟨y, hy, hP⟩
    rcases List.mem_append.mp hy with hy | hy
    · exact Or.inl ⟨y, hy, hP⟩
    · rw [List.mem_singleton] at hy
      subst hy
      exact Or.inr hP
  · rintro (⟨y, hy, hP⟩ | hP)
    · exact ⟨y, List.mem_append_left _ hy, hP⟩
    · exact ⟨x, List.mem_append_right _ (List.mem_singleton_self x), hP⟩

/-- Updating an entry never changes its key. -/
theorem updEntry_fst (c : String) (sub : Option String)
    (p : String × List String) : (updEntry c sub p).1 = p.1 := by
  unfold updEntry
  split <;> rfl

/-- One `forEach` iteration preserves the loop invariant. -/
theorem addRow_inv {m : List (String × List String)} {seen : List CatRow}
    (r : CatRow) (h : GroupsInv m seen) :
    GroupsInv (addRow m r) (seen ++ [r]) := by
  obtain ⟨hnd, hkeys, hsubs⟩ := h
  cases hc : r.category with
  | none =>
    have hred : addRow m r = m := by simp [addRow, hc]
    rw [hred]
    refine ⟨hnd, fun c => ?_, fun p hp => ?_⟩
    · rw [hkeys c, exists_mem_snoc]
      have hno : ¬ r.category = some c := by
        rw [hc]
        exact Option.noConfusion
      rw [or_iff_left hno]
    · obtain ⟨hpnd, hpmem⟩ := hsubs p hp
      refine ⟨hpnd, fun s => ?_⟩
      rw [hpmem s, exists_mem_snoc]
      have hno : ¬ (r.category = some p.1 ∧ r.subcategory = some s) := by
        rw [hc]
        rintro ⟨h1, _⟩
        exact Option.noConfusion h1
      rw [or_iff_left hno]
  | some c0 =>
    by_cases hc0 : c0 = ""
    · subst hc0
      have hred : addRow m r = m := by simp [addRow, hc]
      rw [hred]
      refine ⟨hnd, fun c => ?_, fun p hp => ?_⟩
      · rw [hkeys c, exists_mem_snoc]
        have hno : r.category = some c → c = "" := by
          rw [hc]
          exact fun hx => (Option.some.inj hx).symm
        constructor
        · rintro ⟨hne, hx⟩
          exact ⟨hne, Or.inl hx⟩
        · rintro ⟨hne, hx | hx⟩
          · exact ⟨hne, hx⟩
          · exact absurd (hno hx) hne
      · obtain ⟨hpnd, hpmem⟩ := hsubs p hp
        have hp1 : p.1 ≠ "" :=
          ((hkeys p.1).mp (List.mem_map_of_mem Prod.fst hp)).1
        refine ⟨hpnd, fun s => ?_⟩
        rw [hpmem s, exists_mem_snoc]
        have hno : ¬ (r.category = some p.1 ∧ r.subcategory = some s) := by
          rw [hc]
          rintro ⟨h1, _⟩
          exact hp1 (Option.some.inj h1).symm
        rw [or_iff_left hno]
    · cases hany : m.any (fun p => p.1 = c0) with
      | true =>
        have hex : ∃ p ∈ m, p.1 = c0 := by
          obtain ⟨p, hp, he⟩ := List.any_eq_true.mp hany
          exact ⟨p, hp, of_decide_eq_true he⟩
        have hc0mem : c0 ∈ m.map Prod.fst := by
          obtain ⟨p, hp, he⟩ := hex
          exact he ▸ List.mem_map_of_mem Prod.fst hp
        have hred : addRow m r = m.map (updEntry c0 r.subcategory) := by
          simp [addRow, hc, hc0, hany]
        rw [hred]
        have hkeysmap : (m.map (updEntry c0 r.subcategory)).map Prod.fst
            = m.map Prod.fst := by
          rw [List.map_map]
          exact List.map_congr_left fun p _ => updEntry_fst c0 _ p
        refine ⟨by rw [hkeysmap]; exact hnd, fun c => ?_, fun p hp => ?_⟩
        · rw [hkeysmap, hkeys c, exists_mem_snoc]
          obtain ⟨_, hseen0⟩ := (hkeys c0).mp hc0mem
          have hcat : r.category = some c → c = c0 := by
            rw [hc]
            exact fun hx => (Option.some.inj hx).symm
          constructor
          · rintro ⟨hne, hx⟩
            exact ⟨hne, Or.inl hx⟩
          · rintro ⟨hne, hx | hx⟩
            · exact ⟨hne, hx⟩
            · exact ⟨hne, (hcat hx) ▸ hseen0⟩
        · obtain ⟨q, hq, rfl⟩ := List.mem_map.mp hp
          obtain ⟨hqnd, hqmem⟩ := hsubs q hq
          by_cases hq1 : q.1 = c0
          · simp only [updEntry, if_pos hq1]
            refine ⟨nodup_addSub _ _ hqnd, fun s => ?_⟩
            rw [mem_addSub, hqmem s, exists_mem_snoc]
            have hcat : r.category = some q.1 := by
              rw [hc, hq1]
            constructor
            · rintro (⟨hne, hx⟩ | ⟨hsub, hne⟩)
              · exact ⟨hne, Or.inl hx⟩
              · exact ⟨hne, Or.inr ⟨hcat, hsub⟩⟩
            · rintro ⟨hne, hx | ⟨_, hsub⟩⟩
              · exact Or.inl ⟨hne, hx⟩
              · exact Or.inr ⟨hsub, hne⟩
          · simp only [updEntry, if_neg hq1]
            refine ⟨hqnd, fun s => ?_⟩
            rw [hqmem s, exists_mem_snoc]
            have hno : ¬ (r.category = some q.1 ∧ r.subcategory = some s) := by
              rw [hc]
              rintro ⟨h1, _⟩
              exact hq1 (Option.some.inj h1).symm
            rw [or_iff_left hno]
      | false =>
        have hnotin : c0 ∉ m.map Prod.fst := by
          intro hmem'
          obtain ⟨p, hp, he⟩ := List.mem_map.mp hmem'
          have := List.any_eq_false.mp hany p hp
          exact this (decide_eq_true he)
        have hred : addRow m r = m ++ [(c0, addSub [] r.subcategory)] := by
          simp [addRow, hc, hc0, hany]
        rw [hred]
        refine ⟨?_, fun c => ?_, fun p hp => ?_⟩
        · rw [List.map_append]
          refine List.nodup_append.mpr
            ⟨hnd, List.nodup_singleton c0, ?_⟩
          intro a ha hb
          rw [List.map_singleton, List.mem_singleton] at hb
          subst hb
          exact hnotin ha
        · rw [List.map_append, List.map_singleton, List.mem_append,
            List.mem_singleton, hkeys c, exists_mem_snoc]
          have hcat : r.category = some c ↔ c = c0 := by
            rw [hc]
            exact ⟨fun hx => (Option.some.inj hx).symm,
              fun hx => hx ▸ rfl⟩
          constructor
          · rintro (⟨hne, hx⟩ | rfl)
            · exact ⟨hne, Or.inl hx⟩
            · exact ⟨hc0, Or.inr (hcat.mpr rfl)⟩
          · rintro ⟨hne, hx | hx⟩
            · exact Or.inl ⟨hne, hx⟩
            · exact Or.inr (hcat.mp hx)
        · rcases List.mem_append.mp hp with hp | hp
          · obtain ⟨hpnd, hpmem⟩ := hsubs p hp
            have hp1 : p.1 ≠ c0 := by
              intro he
              exact hnotin (he ▸ List.mem_map_of_mem Prod.fst hp)
            refine ⟨hpnd, fun s => ?_⟩
            rw [hpmem s, exists_mem_snoc]
            have hno : ¬ (r.category = some p.1 ∧ r.subcategory = some s) := by
              rw [hc]
              rintro ⟨h1, _⟩
              exact hp1 (Option.some.inj h1).symm
            rw [or_iff_left hno]
          · rw [List.mem_singleton] at hp
            subst hp
            refine ⟨nodup_addSub _ _ List.nodup_nil, fun s => ?_⟩
            rw [mem_addSub, exists_mem_snoc]
            have hnoseen :
                ¬ ∃ y ∈ seen, y.category = some c0 ∧
                  y.subcategory = some s := by
              rintro ⟨y, hy, h1, _⟩
              exact hnotin ((hkeys c0).mpr ⟨hc0, y, hy, h1⟩)
            have hcat : r.category = some c0 := hc
            simp only [List.not_mem_nil, false_or]
            constructor
            · rintro ⟨hsub, hne⟩
              exact ⟨hne, Or.inr ⟨hcat, hsub⟩⟩
            · rintro ⟨hne, hx | ⟨_, hsub⟩⟩
              · exact absurd hx hnoseen
              · exact ⟨hsub, hne⟩

/-- The `forEach` fold preserves the loop invariant over a whole row
batch. -/
theorem foldl_addRow_inv (rows : List CatRow)
    {m : List (String × List String)} {seen : List CatRow}
    (h : GroupsInv m seen) :
    GroupsInv (rows.foldl addRow m) (seen ++ rows) := by
  induction rows generalizing m seen with
  | nil => simpa using h
  | cons r rs ih =>
    rw [List.foldl_cons]
    have h2 := ih (addRow_inv r h)
    rwa [List.append_assoc, List.singleton_append] at h2

/-- The rendered category map satisfies the loop invariant with respect
to the rows returned by the categories query. -/
theorem categoryGroups_inv (rows : List CatRow) :
    GroupsInv (categoryGroups rows) (categoriesQuery rows) := by
  have h0 : GroupsInv [] [] := by
    refine ⟨List.nodup_nil, fun c => ?_, fun p hp => ?_⟩
    · simp
    · cases hp
  simpa [categoryGroups] using foldl_addRow_inv (categoriesQuery rows) h0

/-- C10 counterexample: a row whose category is the empty string — which
is non-null — produces no group at all, because the page's
`if (!item.category) return;` check also drops empty strings; so "renders
exactly the distinct non-null category values" is false as stated. -/
theorem categories_empty_string_excluded :
    categoryGroups [⟨some "", some "Web"⟩] = [] ∧
    (⟨some "", some "Web"⟩ : CatRow).category ≠ none :=
  ⟨rfl, by decide⟩

/-- C10 (amended): the categories page renders exactly the distinct
non-null, non-empty category values as groups, each exactly once; within
a group the distinct non-null, non-empty subcategories of that category
appear exactly once each; a row with a null (or empty) subcategory
contributes its category group without adding any subcategory entry. -/
theorem category_groups_distinct (rows : List CatRow) :
    ((categoryGroups rows).map Prod.fst).Nodup ∧
    (∀ c : String, c ∈ (categoryGroups rows).map Prod.fst ↔
      c ≠ "" ∧ ∃ r ∈ rows, r.category = some c) ∧
    (∀ p ∈ categoryGroups rows, (p : String × List String).2.Nodup ∧
      ∀ s : String, s ∈ p.2 ↔ s ≠ "" ∧ ∃ r ∈ rows,
        r.category = some p.1 ∧ r.subcategory = some s) := by
  obtain ⟨hnd, hkeys, hsubs⟩ := categoryGroups_inv rows
  refine ⟨hnd, fun c => ?_, fun p hp => ?_⟩
  · rw [hkeys c]
    constructor
    · rintro ⟨hne, y, hy, hcat⟩
      exact ⟨hne, y, (List.mem_filter.mp hy).1, hcat⟩
    · rintro ⟨hne, y, hy, hcat⟩
      refine ⟨hne, y, List.mem_filter.mpr ⟨hy, ?_⟩, hcat⟩
      rw [hcat]
      rfl
  · obtain ⟨hpnd, hpmem⟩ := hsubs p hp
    refine ⟨hpnd, fun s => ?_⟩
    rw [hpmem s]
    constructor
    · rintro ⟨hne, y, hy, hcs⟩
      exact ⟨hne, y, (List.mem_filter.mp hy).1, hcs⟩
    · rintro ⟨hne, y, hy, hcat, hsub⟩
      refine ⟨hne, y, List.mem_filter.mpr ⟨hy, ?_⟩, hcat, hsub⟩
      rw [hcat]
      rfl

/-- C10 witness: two rows under category `"IT"`, one of them without a
subcategory, yield the `"IT"` group with exactly the one subcategory. -/
theorem category_groups_distinct_witness :
    "IT" ∈ (categoryGroups
      [⟨some "IT", some "Web"⟩, ⟨some "IT", none⟩]).map Prod.fst :=
  ((category_groups_distinct
      [⟨some "IT", some "Web"⟩, ⟨some "IT", none⟩]).2.1 "IT").mpr
    ⟨by decide, ⟨some "IT", some "Web"⟩, by decide, rfl⟩

end Inflearn
